import Mathlib

/-!
Verification of the Diskomator firmware (esp32-partylight) against its
natural-language specification.  The definitions below are a shallow
embedding of the Rust sources:

  * `src/mcu/src/lights.rs`    — serpentine index `xy`, the pattern renderer
    loops of `process_fft`, and the FFT-bin slice of `calculate_channel`;
  * `src/mcu/src/ws2812.rs`    — the WS2812 SPI line-code encoder;
  * `src/mcu/src/bluetooth.rs` — the OTA state machine (`begin_ota`,
    `write_ota_data`, `commit_ota`, `abort_ota`) and the `ota_control`
    arm of `gatt_events_task`;
  * `src/common/src/config.rs` — `AppConfig` and its postcard
    serialization (`to_bytes` / `from_bytes`).

Machine integers are modelled as `Nat` with explicit width side conditions.
IEEE-754 `f32` values appear only where their exact bit pattern or their
exactly-representable rational value matters, and are modelled accordingly
(bit patterns for serialization, rationals for the pattern renderer); the
modelling choice is documented at each definition.
-/

namespace Diskomator

/-! ## Constants from `src/mcu/src/lights.rs` -/

/-- `MATRIX_LENGTH` in lights.rs: the panel is 16 x 16 = 256 LEDs. -/
def MATRIX_LENGTH : Nat := 16 * 16

/-- `MATRIX_WIDTH` in lights.rs. -/
def MATRIX_WIDTH : Nat := 16

/-! ## Serpentine index mapping (`xy`, lights.rs lines 800-811)

The Rust function returns `&mut arr[index]`; the index computation is the
pure content and is embedded here verbatim. -/

/-- Embeds the index computation of `xy` in lights.rs: even columns run
down (`x*16 + y`), odd columns run up (`x*16 + (15 - y)`). -/
def xy (x y : Nat) : Nat :=
  if x % 2 == 0 then
    x * MATRIX_WIDTH + y
  else
    x * MATRIX_WIDTH + (MATRIX_WIDTH - 1 - y)

/-- The serpentine mapping as a function between the coordinate pairs and
the linear indices, for stating bijectivity. -/
def xyFin (p : Fin 16 × Fin 16) : Fin 256 :=
  ⟨xy p.1 p.2, by
    have h1 := p.1.isLt
    have h2 := p.2.isLt
    simp only [xy, MATRIX_WIDTH]
    split <;> omega⟩

/-! ## WS2812 SPI encoding (`encode_byte`, ws2812.rs lines 55-67) -/

/-- The lookup table `patterns` of `encode_byte`: bit pair `00 -> 0x88`,
`01 -> 0x8E`, `10 -> 0xE8`, `11 -> 0xEE`. -/
def ws2812Patterns : List Nat := [0x88, 0x8E, 0xE8, 0xEE]

/-- One loop iteration of `encode_byte`: extract the top bit pair
(`(data & 0b1100_0000) >> 6`) and shift (`data <<= 2`, a `u8` shift,
hence reduction mod 256). -/
def encodeByteStep (data : Nat) : Nat × Nat :=
  ((data % 256) / 64, (data * 4) % 256)

/-- Embeds `encode_byte` in ws2812.rs: four SPI bytes, one per bit pair of
the input byte, most significant pair first. -/
def encode_byte (data : Nat) : List Nat :=
  let s0 := encodeByteStep data
  let s1 := encodeByteStep s0.2
  let s2 := encodeByteStep s1.2
  let s3 := encodeByteStep s2.2
  [ws2812Patterns.getD s0.1 0, ws2812Patterns.getD s1.1 0,
   ws2812Patterns.getD s2.1 0, ws2812Patterns.getD s3.1 0]

/-- The inverse bit-pair table: maps an emitted SPI byte back to the
two-bit group it encodes (the spec names this the inverse lookup). -/
def ws2812DecodePair (b : Nat) : Nat :=
  if b == 0x88 then 0 else if b == 0x8E then 1 else if b == 0xE8 then 2 else 3

/-- Decoding four SPI bytes back into one input byte, MSB pair first. -/
def ws2812DecodeByte (bs : List Nat) : Nat :=
  bs.foldl (fun acc b => acc * 4 + ws2812DecodePair b) 0

/-! ## FFT-bin range of `calculate_channel` (lights.rs line 687)

`calculate_channel` slices `spectrum[start_index ..= end_index + 1]`.
The spectrum produced by `rfft_512` has exactly 256 complex bins.  Only
the set of indices touched matters for claim C1, so the slice expression
is embedded as the list of indices it reads. -/

/-- The channel configuration fields relevant to bin indexing
(`ChannelConfig.start_index` / `end_index`, config.rs). -/
structure ChannelRange where
  start_index : Nat
  end_index : Nat
deriving DecidableEq, Repr

/-- `SPECTRUM_LEN`: `rfft_512` returns 256 complex bins. -/
def SPECTRUM_LEN : Nat := 256

/-- Embeds the slice `spectrum[channel_cfg.start_index ..= channel_cfg.end_index + 1]`
of `calculate_channel` (lights.rs line 687): the list of spectrum indices
the channel computation reads, namely `start_index, ..., end_index + 1`. -/
def calculateChannelBinsRead (cfg : ChannelRange) : List Nat :=
  List.range' cfg.start_index (cfg.end_index + 2 - cfg.start_index)

/-- A Rust slice `s[a..=b]` with `s.len() = 256` panics unless `b < 256`
(for the non-empty ranges used here).  This predicate states that the
slice of `calculate_channel` stays in bounds. -/
def calculateChannelSliceInBounds (cfg : ChannelRange) : Prop :=
  cfg.end_index + 1 < SPECTRUM_LEN

instance (cfg : ChannelRange) : Decidable (calculateChannelSliceInBounds cfg) := by
  unfold calculateChannelSliceInBounds; infer_instance

/-! ## OTA engine (`src/mcu/src/bluetooth.rs`)

Bytes are `Nat`; a SHA-256 digest is a list of bytes.  The incremental
`Sha256` hasher is modelled by the list of bytes fed to it so far, and the
digest function itself is an abstract parameter of the environment (its
only relevant property here is whether the final digest equals the
expected one).  The `OtaUpdater` carries no data relevant to the claims,
so it is modelled by `Option Unit` plus trace actions for its effects. -/

/-- OTA control command bytes (bluetooth.rs lines 29-31). -/
def OTA_CMD_BEGIN : Nat := 0x01

/-- Commit command byte. -/
def OTA_CMD_COMMIT : Nat := 0x02

/-- Abort command byte. -/
def OTA_CMD_ABORT : Nat := 0x03

/-- OTA status byte `0x00 = idle` (bluetooth.rs lines 34-37). -/
def OTA_STATUS_IDLE : Nat := 0x00

/-- OTA status byte `0x01 = in progress`. -/
def OTA_STATUS_IN_PROGRESS : Nat := 0x01

/-- OTA status byte `0x02 = success`. -/
def OTA_STATUS_SUCCESS : Nat := 0x02

/-- OTA status byte `0x03 = error`. -/
def OTA_STATUS_ERROR : Nat := 0x03

/-- The ATT error codes the handler uses to reject writes. -/
inductive AttErrorCode where
  | VALUE_NOT_ALLOWED
  | INVALID_ATTRIBUTE_VALUE_LENGTH
  | UNLIKELY_ERROR
deriving DecidableEq, Repr

/-- `OtaState` (bluetooth.rs lines 40-45). -/
structure OtaState where
  ota_updater : Option Unit
  bytes_received : Nat
  expected_hash : Option (List Nat)
  hasher : Option (List Nat)
deriving DecidableEq, Repr

/-- Environment of the OTA engine: the SHA-256 digest function (abstract)
and the outcomes of the fallible flash operations. -/
structure OtaEnv where
  sha256 : List Nat → List Nat
  updaterNewOk : Bool
  writeOk : Bool
  completeOk : Bool

/-- Observable actions of the `ota_control` handler, in program order.
`reset` is `esp_hal::reset::software_reset`, which never returns, so it
can only be the last element of a trace. -/
inductive OtaAction where
  | setControl (v : Nat)
  | setStatus (v : Nat)
  | updaterComplete
  | updaterAbort
  | delayMs (n : Nat)
  | reset
  | reply (r : Option AttErrorCode)
deriving DecidableEq, Repr

/-- `begin_ota` (bluetooth.rs lines 417-446): refuses when an update is
already in progress or no expected hash has been stored; otherwise creates
the updater (which may fail), resets the byte counter and starts a fresh
hasher. -/
def begin_ota (env : OtaEnv) (s : OtaState) : Except String OtaState :=
  if s.ota_updater.isSome then .error "OTA already in progress"
  else if s.expected_hash.isNone then .error "Expected hash not set"
  else if env.updaterNewOk = false then .error "Failed to create OtaUpdater"
  else .ok { s with ota_updater := some (), bytes_received := 0, hasher := some [] }

/-- `write_ota_data` (bluetooth.rs lines 449-471): streams a chunk to the
updater and to the hasher and advances the byte counter. -/
def write_ota_data (env : OtaEnv) (s : OtaState) (data : List Nat) :
    Except String OtaState :=
  match s.ota_updater with
  | none => .error "OTA not started"
  | some _ =>
    match s.hasher with
    | none => .error "Hasher not initialized"
    | some fed =>
      if env.writeOk = false then .error "Failed to write OTA data"
      else .ok { s with hasher := some (fed ++ data),
                        bytes_received := s.bytes_received + data.length }

/-- Outcome of `commit_ota`: an error message (one of the `Err` returns in
bluetooth.rs lines 474-511), or divergence through `software_reset`
(line 517 — the trailing `Ok(())` is unreachable, as the source marks with
`allow(unreachable_code)`). -/
inductive CommitOutcome where
  | error (msg : String)
  | resetInvoked
deriving DecidableEq, Repr

/-- `commit_ota` (bluetooth.rs lines 474-521): takes the updater and the
hasher out of the state, finalizes the digest over every byte streamed so
far, compares it with the expected hash, and only on a match marks the new
partition bootable (`OtaUpdater::complete`) and invokes the software reset
— which never returns. -/
def commit_ota (env : OtaEnv) (s : OtaState) :
    OtaState × CommitOutcome × List OtaAction :=
  match s.ota_updater with
  | none => (s, .error "OTA not started", [])
  | some _ =>
    let s1 := { s with ota_updater := none }
    match s1.hasher with
    | none => (s1, .error "Hasher not initialized", [])
    | some fed =>
      let s2 := { s1 with hasher := none }
      match s2.expected_hash with
      | none => (s2, .error "Expected hash not set", [])
      | some expected =>
        if env.sha256 fed = expected then
          if env.completeOk then
            (s2, .resetInvoked, [.updaterComplete, .reset])
          else
            (s2, .error "Failed to complete OTA update", [])
        else
          (s2, .error "Hash validation failed", [])

/-- `abort_ota` (bluetooth.rs lines 524-533): aborts the updater if one is
active and clears the whole session state, including the expected hash. -/
def abort_ota (s : OtaState) : OtaState × List OtaAction :=
  ( { ota_updater := none, bytes_received := 0,
      expected_hash := none, hasher := none },
    if s.ota_updater.isSome then [OtaAction.updaterAbort] else [] )

/-- The disconnect cleanup of `gatt_events_task` (bluetooth.rs lines
406-410): abort only when an update is in progress. -/
def disconnect_cleanup (s : OtaState) : OtaState × List OtaAction :=
  if s.ota_updater.isSome then abort_ota s else (s, [])

/-- Result of processing one write to `ota_control` in `gatt_events_task`
(bluetooth.rs lines 280-339 plus the reply at lines 389-399): the state
afterwards, the observable actions in program order, and whether the
handler diverged (software reset fired before any reply could be sent). -/
structure OtaProcResult where
  state : OtaState
  actions : List OtaAction
  diverged : Bool
deriving DecidableEq, Repr

/-- The `ota_control` write arm of `gatt_events_task` (bluetooth.rs lines
280-339) together with the common reply step (lines 389-399).  On a
successful commit, `commit_ota` itself resets the chip, so the
success-arm code of the handler (set status SUCCESS, 100 ms delay,
second reset) and the reply are never reached. -/
def process_ota_control (env : OtaEnv) (s : OtaState) (data : List Nat) :
    OtaProcResult :=
  if data.length = 1 then
    let cmd := data.headD 0
    if cmd = OTA_CMD_BEGIN then
      match begin_ota env s with
      | .ok s' =>
        ⟨s', [.setControl OTA_CMD_BEGIN, .setStatus OTA_STATUS_IN_PROGRESS,
              .reply none], false⟩
      | .error _ =>
        ⟨s, [.setStatus OTA_STATUS_ERROR,
             .reply (some .UNLIKELY_ERROR)], false⟩
    else if cmd = OTA_CMD_COMMIT then
      match commit_ota env s with
      | (s', .resetInvoked, acts) => ⟨s', acts, true⟩
      | (s', .error _, acts) =>
        ⟨s', acts ++ [.setStatus OTA_STATUS_ERROR,
                      .reply (some .UNLIKELY_ERROR)], false⟩
    else if cmd = OTA_CMD_ABORT then
      let r := abort_ota s
      ⟨r.1, r.2 ++ [.setControl OTA_CMD_ABORT, .setStatus OTA_STATUS_IDLE,
                    .reply none], false⟩
    else
      ⟨s, [.reply (some .VALUE_NOT_ALLOWED)], false⟩
  else
    ⟨s, [.reply (some .INVALID_ATTRIBUTE_VALUE_LENGTH)], false⟩

/-- The `ota_hash` write arm (bluetooth.rs lines 340-360): a 32-byte value
becomes the expected digest; any other length is rejected. -/
def process_ota_hash (s : OtaState) (data : List Nat) :
    OtaState × Option AttErrorCode :=
  if data.length = 32 then ({ s with expected_hash := some data }, none)
  else (s, some .INVALID_ATTRIBUTE_VALUE_LENGTH)

/-- The value the `ota_status` characteristic holds after a trace of
actions, starting from `init`: the last `setStatus` wins. -/
def lastSetStatus (acts : List OtaAction) (init : Nat) : Nat :=
  acts.foldl (fun cur a => match a with | .setStatus v => v | _ => cur) init

/-- A concrete environment for closed evaluations: the digest of a byte
stream is modelled as the stream itself and every flash operation
succeeds. -/
def otaEnvId : OtaEnv := ⟨fun bs => bs, true, true, true⟩

/-- The per-connection initial `OtaState` (bluetooth.rs lines 214-219). -/
def otaInitialState : OtaState := ⟨none, 0, none, none⟩

/-- A mid-update state: updater active, expected hash stored, bytes
`[9, 9, 9]` streamed; under `otaEnvId` the finalized digest matches. -/
def otaReceivingState : OtaState := ⟨some (), 3, some [9, 9, 9], some [9, 9, 9]⟩

/-! ## Pattern renderer (`process_fft`, lights.rs lines 705-794)

A framebuffer is a pixel assignment `Nat → RGB8` restricted to indices
below 256.  The in-place stores `colors[index] = value` of the render
loops are embedded as a list of `(index, value)` writes applied in program
order, later writes overriding earlier ones.  The per-channel scaled
colors (`calculate_channel` output times `color` times 255, computed in
`f32`) are identical between the Stripes and the Quarters branch, so they
enter the model as an abstract assignment `cc : Nat → RGB8` of one color
per channel. -/

/-- `RGB8` of the smart-leds crate: one byte per component. -/
structure RGB8 where
  r : Nat
  g : Nat
  b : Nat
deriving DecidableEq, Repr

/-- `RGB8::new(0, 0, 0)`, the initial value of every framebuffer pixel
(lights.rs line 661). -/
def black : RGB8 := ⟨0, 0, 0⟩

/-- Sequential array stores: `applyWrites ws init` performs the writes of
`ws` in order on the pixel assignment `init`, each `(index, value)` pair
embedding one `colors[index] = value`. -/
def applyWrites {α : Type} : List (Nat × α) → (Nat → α) → Nat → α
  | [], init => init
  | w :: ws, init => applyWrites ws (fun j => if j = w.1 then w.2 else init j)

/-- The Stripes branch of `process_fft` (lights.rs lines 717-731): the
loop stores into `colors[i]` once per index, choosing the channel by
`row = i / 16`, `col = i % 16` without consulting the serpentine map. -/
def stripesFrame (cc : Nat → RGB8) : Nat → RGB8 := fun i =>
  let row := i / 16
  let col := i % 16
  if row < 8 ∧ col < 8 then cc 0
  else if row < 8 ∧ col ≥ 8 then cc 1
  else if row ≥ 8 ∧ col < 8 then cc 2
  else cc 3

/-- The quadrant offsets of the Quarters branch (lights.rs lines 777-783):
top-left, top-right, bottom-left, bottom-right. -/
def quarterOffset : Nat → Nat × Nat
  | 0 => (0, 0)
  | 1 => (8, 0)
  | 2 => (0, 8)
  | 3 => (8, 8)
  | _ => (0, 0)

/-- The stores of the Quarters branch (lights.rs lines 774-790) as
`(target index, channel)` pairs in loop order: for each quadrant `i` and
each `(x, y)` of the 8 x 8 block, the write goes through the serpentine
map to `xy (offset_x + x) (offset_y + y)` with value `channel_colors[i]`. -/
def quartersWrites : List (Nat × Nat) :=
  (List.range 4).flatMap fun i =>
    (List.range 8).flatMap fun y =>
      (List.range 8).map fun x =>
        (xy ((quarterOffset i).1 + x) ((quarterOffset i).2 + y), i)

/-- The framebuffer produced by the Quarters branch, given the per-channel
scaled colors. -/
def quartersFrame (cc : Nat → RGB8) : Nat → RGB8 :=
  applyWrites (quartersWrites.map fun p => (p.1, cc p.2)) fun _ => black

/-- Which channel (if any) last wrote each index in the Quarters branch:
the same write list with the channel index as value. -/
def quartersSel : Nat → Option Nat :=
  applyWrites (quartersWrites.map fun p => (p.1, some p.2)) fun _ => none

/-- The physical row of linear strip index `j` under the serpentine
layout: `j % 16` on even columns, `15 - j % 16` on odd columns. -/
def serpY (j : Nat) : Nat :=
  if (j / 16) % 2 = 0 then j % 16 else 15 - j % 16

/-- The quadrant number of a physical coordinate: 0 top-left, 1 top-right,
2 bottom-left, 3 bottom-right. -/
def quadrantOf (x y : Nat) : Nat :=
  (if x < 8 then 0 else 1) + (if y < 8 then 0 else 2)

/-- Four pairwise distinct channel colors, for concrete renderer
evaluations. -/
def demoColors : Nat → RGB8 := fun i =>
  if i = 0 then ⟨255, 0, 0⟩
  else if i = 1 then ⟨0, 255, 0⟩
  else if i = 2 then ⟨0, 0, 255⟩
  else ⟨255, 255, 255⟩

/-! ## The Bars branch (lights.rs lines 735-761)

The per-bar fill count is `(channel_strengths[i] * 16.0) as usize`
(line 745).  The strength is an `f32` in `[0, 1]`; multiplying such a
value by `16.0` is a power-of-two scaling and therefore exact in `f32`,
and the `as usize` cast truncates.  Modelling the strength by its exact
rational value, the count is the floor of `strength * 16`.  The color
written to the filled pixels (lines 751-755, an `f32` product cast to
bytes) is the same for every pixel of a bar and enters the model as an
abstract per-channel color `bc`. -/

/-- The fill height of one bar: `(strength * 16.0) as usize`. -/
def barsPixelCount (q : ℚ) : Nat := (⌊q * 16⌋).toNat

/-- The stores of bar `i` with fill count `n` (lights.rs lines 746-757) as
`(target index, channel)` pairs in loop order: for `y` in `0..n` and `x`
in `0..2` the pixel at `xy (i*2 + x) (15 - y)` — bottom to top — receives
the channel color. -/
def barWrites (i n : Nat) : List (Nat × Nat) :=
  (List.range n).flatMap fun y =>
    (List.range 2).map fun x => (xy (i * 2 + x) (15 - y), i)

/-- All eight bars in loop order (lights.rs line 743). -/
def barsWrites (pixels : Nat → Nat) : List (Nat × Nat) :=
  (List.range 8).flatMap fun i => barWrites i (pixels i)

/-- The framebuffer produced by the Bars branch from given per-bar fill
counts and per-channel colors, starting from the all-black buffer. -/
def barsFrame (pixels : Nat → Nat) (bc : Nat → RGB8) : Nat → RGB8 :=
  applyWrites ((barsWrites pixels).map fun p => (p.1, bc p.2)) fun _ => black

/-- The Bars framebuffer as a function of the rational channel
strengths. -/
def barsFrameOf (strength : Nat → ℚ) (bc : Nat → RGB8) : Nat → RGB8 :=
  barsFrame (fun i => barsPixelCount (strength i)) bc

/-- A strength whose fill count separates truncation from rounding:
channel 0 at 31/32 (`0.96875`, exactly representable in `f32`), all other
channels silent. -/
def strengthAlmostFull : Nat → ℚ := fun i => if i = 0 then 31 / 32 else 0

/-- The strengths of scenario S2: channel 0 at 3/8 (`0.375`), silence
elsewhere. -/
def strengthS2 : Nat → ℚ := fun i => if i = 0 then 3 / 8 else 0

/-! ## AppConfig and its postcard serialization (`src/common/src/config.rs`)

`AppConfig::to_bytes` / `from_bytes` delegate to the postcard crate
(`postcard::to_vec::<_, B>` with `B = 200` and `postcard::from_bytes`).
Postcard is an external dependency; its wire format for the types involved
is modelled from the postcard wire specification: unsigned multi-byte
integers (`u32`, `usize`) are LEB128 varints (low 7 bits first,
continuation bit `0x80`); `u8` is one raw byte; `bool` is one byte 0 or 1;
`f32` is its IEEE-754 bit pattern in four little-endian bytes; an enum
value is its variant index as a varint followed by the variant payload;
structs and fixed-size arrays are their fields in order with no framing.
`f32` fields are modelled by their 32-bit bit patterns, so value equality
is bit-for-bit, matching the round-trip wording of the spec; `usize` is
32 bits on the ESP32 target. -/

/-- LEB128 varint encoding with explicit recursion fuel (each step takes
7 bits, so fuel 10 is exact for every value below `2^70`; postcard never
needs more than 10 bytes either). -/
def varintEncodeAux : Nat → Nat → List Nat
  | 0, n => [n % 128]
  | fuel + 1, n =>
    if n < 128 then [n] else (n % 128 + 128) :: varintEncodeAux fuel (n / 128)

/-- The varint encoding of an unsigned integer. -/
def varintEncode (n : Nat) : List Nat := varintEncodeAux 10 n

/-- Varint decoding: consume bytes while the continuation bit is set. -/
def varintDecode : List Nat → Option (Nat × List Nat)
  | [] => none
  | b :: rest =>
    if b < 128 then some (b, rest)
    else
      match varintDecode rest with
      | none => none
      | some (m, r) => some (b % 128 + 128 * m, r)

/-- Varint decoding of an integer of a bounded type: postcard rejects
varints that exceed the range of the target type. -/
def deserVarint (width : Nat) (bs : List Nat) : Option (Nat × List Nat) :=
  match varintDecode bs with
  | some (n, r) => if n < width then some (n, r) else none
  | none => none

/-- An `f32` on the wire: the four little-endian bytes of its bit
pattern. -/
def serF32 (bits : Nat) : List Nat :=
  [bits % 256, bits / 256 % 256, bits / 65536 % 256, bits / 16777216 % 256]

/-- Reading an `f32` bit pattern back from four little-endian bytes. -/
def deserF32 : List Nat → Option (Nat × List Nat)
  | b0 :: b1 :: b2 :: b3 :: r =>
    some (b0 + 256 * b1 + 65536 * b2 + 16777216 * b3, r)
  | _ => none

/-- A `u8` on the wire: one raw byte. -/
def serU8 (n : Nat) : List Nat := [n]

/-- Reading a `u8` back. -/
def deserU8 : List Nat → Option (Nat × List Nat)
  | b :: r => some (b, r)
  | [] => none

/-- A `bool` on the wire: one byte, 0 or 1. -/
def serBool (b : Bool) : List Nat := [if b then 1 else 0]

/-- Reading a `bool` back; postcard rejects any byte other than 0 or 1. -/
def deserBool : List Nat → Option (Bool × List Nat)
  | 0 :: r => some (false, r)
  | 1 :: r => some (true, r)
  | _ => none

/-- `AggregationMethod` (config.rs lines 3-8). -/
inductive AggregationMethod where
  | Sum
  | Max
  | Average
deriving DecidableEq, Repr

/-- The serde variant index of an `AggregationMethod`. -/
def aggTag : AggregationMethod → Nat
  | .Sum => 0
  | .Max => 1
  | .Average => 2

/-- An `AggregationMethod` on the wire: its variant index as a varint. -/
def serAgg (a : AggregationMethod) : List Nat := varintEncode (aggTag a)

/-- Reading an `AggregationMethod` back. -/
def deserAgg (bs : List Nat) : Option (AggregationMethod × List Nat) :=
  match deserVarint (2 ^ 32) bs with
  | some (0, r) => some (.Sum, r)
  | some (1, r) => some (.Max, r)
  | some (2, r) => some (.Average, r)
  | _ => none

/-- `ChannelConfig` (config.rs lines 10-23), the `f32` fields replaced by
their bit patterns and the `[f32; 3]` color by a triple. -/
structure ChannelConfig where
  start_index : Nat
  end_index : Nat
  premult : Nat
  noise_gate : Nat
  exponent : Nat
  color : Nat × Nat × Nat
  aggregate : AggregationMethod
deriving DecidableEq, Repr

/-- The Rust type invariants of a `ChannelConfig` value: `usize` fields
fit in 32 bits (ESP32), `f32` bit patterns in 32 bits, `u8` in 8. -/
def ChannelConfig.wf (c : ChannelConfig) : Prop :=
  c.start_index < 2 ^ 32 ∧ c.end_index < 2 ^ 32 ∧ c.premult < 2 ^ 32 ∧
  c.noise_gate < 2 ^ 32 ∧ c.exponent < 256 ∧
  c.color.1 < 2 ^ 32 ∧ c.color.2.1 < 2 ^ 32 ∧ c.color.2.2 < 2 ^ 32

instance (c : ChannelConfig) : Decidable c.wf := by
  unfold ChannelConfig.wf
  infer_instance

/-- A `ChannelConfig` on the wire: its fields in declaration order. -/
def serChannelConfig (c : ChannelConfig) : List Nat :=
  varintEncode c.start_index ++ varintEncode c.end_index ++
  serF32 c.premult ++ serF32 c.noise_gate ++ serU8 c.exponent ++
  serF32 c.color.1 ++ serF32 c.color.2.1 ++ serF32 c.color.2.2 ++
  serAgg c.aggregate

/-- Reading a `ChannelConfig` back, field by field. -/
def deserChannelConfig (bs : List Nat) : Option (ChannelConfig × List Nat) := do
  let (si, bs) ← deserVarint (2 ^ 32) bs
  let (ei, bs) ← deserVarint (2 ^ 32) bs
  let (pm, bs) ← deserF32 bs
  let (ng, bs) ← deserF32 bs
  let (ex, bs) ← deserU8 bs
  let (c0, bs) ← deserF32 bs
  let (c1, bs) ← deserF32 bs
  let (c2, bs) ← deserF32 bs
  let (ag, bs) ← deserAgg bs
  pure (⟨si, ei, pm, ng, ex, (c0, c1, c2), ag⟩, bs)

/-- Reading a fixed-size array of `n` channel configurations. -/
def deserChannels : Nat → List Nat → Option (List ChannelConfig × List Nat)
  | 0, bs => some ([], bs)
  | n + 1, bs => do
    let (c, bs1) ← deserChannelConfig bs
    let (cs, bs2) ← deserChannels n bs1
    pure (c :: cs, bs2)

/-- `NeopixelMatrixPattern` (config.rs lines 25-30); the fixed-size
channel arrays become lists whose length is pinned by `wf`. -/
inductive NeopixelMatrixPattern where
  | Stripes (channels : List ChannelConfig)
  | Bars (channels : List ChannelConfig)
  | Quarters (channels : List ChannelConfig)
deriving DecidableEq, Repr

/-- The serde variant index of a pattern. -/
def patternTag : NeopixelMatrixPattern → Nat
  | .Stripes _ => 0
  | .Bars _ => 1
  | .Quarters _ => 2

/-- The channel array of a pattern. -/
def patternChannels : NeopixelMatrixPattern → List ChannelConfig
  | .Stripes cs => cs
  | .Bars cs => cs
  | .Quarters cs => cs

/-- The Rust type invariant of a pattern value: 4, 8 and 4 channels
respectively, each well formed. -/
def NeopixelMatrixPattern.wf : NeopixelMatrixPattern → Prop
  | .Stripes cs => cs.length = 4 ∧ ∀ c ∈ cs, c.wf
  | .Bars cs => cs.length = 8 ∧ ∀ c ∈ cs, c.wf
  | .Quarters cs => cs.length = 4 ∧ ∀ c ∈ cs, c.wf

instance (p : NeopixelMatrixPattern) : Decidable p.wf := by
  cases p <;> (unfold NeopixelMatrixPattern.wf; infer_instance)

/-- A pattern on the wire: its variant index, then the channels inline. -/
def serPattern (p : NeopixelMatrixPattern) : List Nat :=
  varintEncode (patternTag p) ++ (patternChannels p).flatMap serChannelConfig

/-- Reading a pattern back: the variant index selects the array length. -/
def deserPattern (bs : List Nat) : Option (NeopixelMatrixPattern × List Nat) :=
  match deserVarint (2 ^ 32) bs with
  | some (0, r) => do
    let (cs, r1) ← deserChannels 4 r
    pure (.Stripes cs, r1)
  | some (1, r) => do
    let (cs, r1) ← deserChannels 8 r
    pure (.Bars cs, r1)
  | some (2, r) => do
    let (cs, r1) ← deserChannels 4 r
    pure (.Quarters cs, r1)
  | _ => none

/-- `FFTSize` (config.rs lines 32-37); serde serializes the variant index
0, 1, 2, not the discriminant values 128, 256, 512. -/
inductive FFTSize where
  | Size128
  | Size256
  | Size512
deriving DecidableEq, Repr

/-- The serde variant index of an `FFTSize`. -/
def fftTag : FFTSize → Nat
  | .Size128 => 0
  | .Size256 => 1
  | .Size512 => 2

/-- An `FFTSize` on the wire. -/
def serFFTSize (f : FFTSize) : List Nat := varintEncode (fftTag f)

/-- Reading an `FFTSize` back. -/
def deserFFTSize (bs : List Nat) : Option (FFTSize × List Nat) :=
  match deserVarint (2 ^ 32) bs with
  | some (0, r) => some (.Size128, r)
  | some (1, r) => some (.Size256, r)
  | some (2, r) => some (.Size512, r)
  | _ => none

/-- `AppConfig` (config.rs lines 39-46). -/
structure AppConfig where
  config_version : Nat
  sample_count : Nat
  fft_size : FFTSize
  use_hann_window : Bool
  pattern : NeopixelMatrixPattern
deriving DecidableEq, Repr

/-- The Rust type invariant of an `AppConfig` value. -/
def AppConfig.wf (c : AppConfig) : Prop :=
  c.config_version < 2 ^ 32 ∧ c.sample_count < 2 ^ 32 ∧ c.pattern.wf

instance (c : AppConfig) : Decidable c.wf := by
  unfold AppConfig.wf
  infer_instance

/-- An `AppConfig` on the wire: its five fields in order. -/
def serAppConfig (c : AppConfig) : List Nat :=
  varintEncode c.config_version ++ varintEncode c.sample_count ++
  serFFTSize c.fft_size ++ serBool c.use_hann_window ++ serPattern c.pattern

/-- Reading an `AppConfig` back. -/
def deserAppConfig (bs : List Nat) : Option (AppConfig × List Nat) := do
  let (cv, bs) ← deserVarint (2 ^ 32) bs
  let (sc, bs) ← deserVarint (2 ^ 32) bs
  let (fs, bs) ← deserFFTSize bs
  let (hw, bs) ← deserBool bs
  let (pt, bs) ← deserPattern bs
  pure (⟨cv, sc, fs, hw, pt⟩, bs)

/-- `AppConfig::to_bytes::<200>` (config.rs lines 52-55):
`postcard::to_vec` into a 200-byte `heapless::Vec`, failing when the
serialization does not fit. -/
def AppConfig.to_bytes (c : AppConfig) : Option (List Nat) :=
  if (serAppConfig c).length ≤ 200 then some (serAppConfig c) else none

/-- `AppConfig::from_bytes` (config.rs lines 58-60):
`postcard::from_bytes`, which discards unused trailing bytes. -/
def AppConfig.from_bytes (bs : List Nat) : Option AppConfig :=
  (deserAppConfig bs).map Prod.fst

/-- A concrete configuration for closed evaluations: version 1, 256
samples, 512-point FFT, Hann window, Stripes with four identical channels
(`premult = 1.0f32`, bit pattern `0x3F800000`). -/
def sampleConfig : AppConfig :=
  ⟨1, 256, .Size512, true,
   .Stripes (List.replicate 4
     ⟨0, 10, 0x3F800000, 0, 1, (0x3F800000, 0, 0), .Sum⟩)⟩

end Diskomator

namespace Diskomator

/-! ## Helper lemmas -/

/-- The serpentine index determines the panel coordinates: `xy` is
injective on the 16 x 16 coordinate domain. -/
theorem xy_inj (x1 y1 x2 y2 : Nat) (_hx1 : x1 < 16) (hy1 : y1 < 16)
    (_hx2 : x2 < 16) (hy2 : y2 < 16) (h : xy x1 y1 = xy x2 y2) :
    x1 = x2 ∧ y1 = y2 := by
  simp only [xy, MATRIX_WIDTH, beq_iff_eq] at h
  split at h <;> split at h <;> omega

/-- A write list whose targets all differ from `j` leaves pixel `j`
unchanged. -/
theorem applyWrites_not_target {α : Type} (ws : List (Nat × α))
    (init : Nat → α) (j : Nat) (h : ∀ w ∈ ws, w.1 ≠ j) :
    applyWrites ws init j = init j := by
  induction ws generalizing init with
  | nil => rfl
  | cons w ws ih =>
    show applyWrites ws _ j = init j
    rw [ih _ fun w' hw' => h w' (List.mem_cons_of_mem _ hw')]
    exact if_neg fun hj => h w (List.mem_cons_self _ _) hj.symm

/-- Writes distribute over list append. -/
theorem applyWrites_append {α : Type} (a b : List (Nat × α)) (init : Nat → α) :
    applyWrites (a ++ b) init = applyWrites b (applyWrites a init) := by
  induction a generalizing init with
  | nil => rfl
  | cons w a ih => exact ih _

/-- Applying writes commutes with mapping a value translation over the
written values and the initial assignment. -/
theorem applyWrites_map {α β : Type} (v : β → α) (ws : List (Nat × β))
    (init : Nat → β) (j : Nat) :
    applyWrites (ws.map fun p => (p.1, v p.2)) (fun j' => v (init j')) j =
      v (applyWrites ws init j) := by
  induction ws generalizing init with
  | nil => rfl
  | cons w ws ih =>
    show applyWrites (ws.map fun p => (p.1, v p.2))
        (fun j' => if j' = w.1 then v w.2 else v (init j')) j = _
    have h : (fun j' => if j' = w.1 then v w.2 else v (init j')) =
        fun j' => v (if j' = w.1 then w.2 else init j') := by
      funext j'
      split <;> rfl
    rw [h, ih]
    rfl

/-- The Quarters frame is the selector image under the color table. -/
theorem quartersFrame_eq_sel (cc : Nat → RGB8) (j : Nat) :
    quartersFrame cc j = (quartersSel j).elim black cc := by
  have h := applyWrites_map (fun o => Option.elim o black cc)
    (quartersWrites.map fun p => (p.1, some p.2)) (fun _ => none) j
  simpa [quartersFrame, quartersSel, List.map_map, Function.comp] using h

set_option maxHeartbeats 2000000 in
set_option maxRecDepth 100000 in
/-- On every strip index, the last (indeed only) Quarters write comes from
the channel of the physical quadrant under the serpentine layout. -/
theorem quartersSel_eq : ∀ j < 256,
    quartersSel j = some (quadrantOf (j / 16) (serpY j)) := by
  decide

/-- Bars other than the one owning a column never write to it. -/
theorem barWrites_untouched (bc : Nat → RGB8) (i n col row : Nat)
    (init : Nat → RGB8) (hi : i < 8) (hn : n ≤ 16) (hcol : col < 16)
    (hrow : row < 16) (hne : col / 2 ≠ i) :
    applyWrites ((barWrites i n).map fun p => (p.1, bc p.2)) init (xy col row) =
      init (xy col row) := by
  apply applyWrites_not_target
  intro w hw
  simp only [List.mem_map] at hw
  obtain ⟨p, hp, rfl⟩ := hw
  simp only [barWrites, List.mem_flatMap, List.mem_map, List.mem_range] at hp
  obtain ⟨y, hy, x, hx, rfl⟩ := hp
  intro h
  have hxy := xy_inj (i * 2 + x) (15 - y) col row (by omega) (by omega) hcol hrow h
  omega

/-- The pixels a single bar paints in its own two columns: exactly the
bottom `n` rows. -/
theorem barWrites_apply (bc : Nat → RGB8) (i n col row : Nat)
    (init : Nat → RGB8) (hi : i < 8) (hn : n ≤ 16) (hcol : col < 16)
    (hrow : row < 16) (hc2 : col / 2 = i) :
    applyWrites ((barWrites i n).map fun p => (p.1, bc p.2)) init (xy col row) =
      if 16 - n ≤ row then bc i else init (xy col row) := by
  induction n with
  | zero =>
    rw [if_neg (by omega)]
    rfl
  | succ n ih =>
    have hn' : n ≤ 16 := by omega
    have hsplit : barWrites i (n + 1) = barWrites i n ++
        [(xy (i * 2 + 0) (15 - n), i), (xy (i * 2 + 1) (15 - n), i)] := by
      simp [barWrites, List.range_succ]
    rw [hsplit, List.map_append, applyWrites_append]
    show (if xy col row = xy (i * 2 + 1) (15 - n) then bc i
          else if xy col row = xy (i * 2 + 0) (15 - n) then bc i
          else applyWrites ((barWrites i n).map fun p => (p.1, bc p.2)) init
            (xy col row)) = _
    by_cases hre : row = 15 - n
    · have hcc : col = i * 2 + 0 ∨ col = i * 2 + 1 := by omega
      rcases hcc with hc | hc
      · rw [if_neg fun h => by
          have := xy_inj col row (i * 2 + 1) (15 - n) hcol hrow (by omega)
            (by omega) h
          omega]
        rw [if_pos (by rw [hc, hre]), if_pos (by omega)]
      · rw [if_pos (by rw [hc, hre]), if_pos (by omega)]
    · rw [if_neg fun h => by
        have := xy_inj col row (i * 2 + 1) (15 - n) hcol hrow (by omega)
          (by omega) h
        omega]
      rw [if_neg fun h => by
        have := xy_inj col row (i * 2 + 0) (15 - n) hcol hrow (by omega)
          (by omega) h
        omega]
      rw [ih hn']
      by_cases h16 : 16 - n ≤ row
      · rw [if_pos h16, if_pos (by omega)]
      · rw [if_neg h16, if_neg (by omega)]

/-- Composition over a list of bar indices: the pixel of `(col, row)` is
painted iff the bar owning the column appears in the list and the row is
within its fill. -/
theorem barsList_apply (bc : Nat → RGB8) (pixels : Nat → Nat) (l : List Nat)
    (col row : Nat) (init : Nat → RGB8)
    (hl : ∀ i ∈ l, i < 8) (hp : ∀ i, pixels i ≤ 16)
    (hcol : col < 16) (hrow : row < 16) :
    applyWrites ((l.flatMap fun i => barWrites i (pixels i)).map
        fun p => (p.1, bc p.2)) init (xy col row) =
      if col / 2 ∈ l ∧ 16 - pixels (col / 2) ≤ row then bc (col / 2)
      else init (xy col row) := by
  induction l generalizing init with
  | nil => simp [applyWrites]
  | cons i l ih =>
    rw [List.flatMap_cons, List.map_append, applyWrites_append]
    rw [ih _ fun i' hi' => hl i' (List.mem_cons_of_mem _ hi')]
    by_cases hc : col / 2 = i
    · subst hc
      rw [barWrites_apply bc _ (pixels _) col row init
        (hl _ (List.mem_cons_self _ _)) (hp _) hcol hrow rfl]
      by_cases hF : 16 - pixels (col / 2) ≤ row
      · simp [hF]
      · simp [hF]
    · rw [barWrites_untouched bc i (pixels i) col row init
        (hl i (List.mem_cons_self _ _)) (hp i) hcol hrow hc]
      simp [List.mem_cons, hc]

/-- The Bars framebuffer pointwise: pixel `(col, row)` shows the owning
channel color iff the row lies within the bottom `pixels (col / 2)` rows,
and is black otherwise. -/
theorem barsFrame_apply (bc : Nat → RGB8) (pixels : Nat → Nat)
    (col row : Nat) (hp : ∀ i, pixels i ≤ 16) (hcol : col < 16)
    (hrow : row < 16) :
    barsFrame pixels bc (xy col row) =
      if 16 - pixels (col / 2) ≤ row then bc (col / 2) else black := by
  have hcd : col / 2 < 8 := by omega
  have h := barsList_apply bc pixels (List.range 8) col row (fun _ => black)
    (fun i hi => List.mem_range.mp hi) hp hcol hrow
  simpa [barsFrame, barsWrites, List.mem_range, hcd] using h

/-- A strength at most 1 fills at most the 16 rows of a column. -/
theorem barsPixelCount_le (q : ℚ) (h1 : q ≤ 1) : barsPixelCount q ≤ 16 := by
  have h : q * 16 ≤ (16 : ℚ) := by linarith
  have hf : (⌊q * 16⌋ : ℤ) ≤ 16 := by
    calc ⌊q * 16⌋ ≤ ⌊(16 : ℚ)⌋ := Int.floor_le_floor h
    _ = 16 := by norm_num
  exact Int.toNat_le.mpr hf

/-- The fill count of `strengthAlmostFull`: truncation gives 15. -/
theorem strengthAlmostFull_count :
    (fun i => barsPixelCount (strengthAlmostFull i)) =
      fun i => if i = 0 then 15 else 0 := by
  funext i
  by_cases h : i = 0
  · have hf : (⌊(31 / 32 : ℚ) * 16⌋ : ℤ) = 15 := by
      rw [Int.floor_eq_iff]
      norm_num
    simp [h, strengthAlmostFull, barsPixelCount, hf]
  · have hf : (⌊(0 : ℚ) * 16⌋ : ℤ) = 0 := by norm_num
    simp [h, strengthAlmostFull, barsPixelCount, hf]

/-! ## Claim theorems -/

/-- C7: the serpentine mapping `xy` addresses `x*16 + y` on even columns and
`x*16 + (15 - y)` on odd columns, is a bijection from the 256 coordinate
pairs onto the indices `0..256`, and takes the five sampled values of
scenario S3. -/
theorem xy_serpentine_bijection :
    (∀ x < 16, ∀ y < 16,
      xy x y = if x % 2 = 0 then x * 16 + y else x * 16 + (15 - y)) ∧
    Function.Bijective xyFin ∧
    xy 0 0 = 0 ∧ xy 0 15 = 15 ∧ xy 1 0 = 31 ∧ xy 1 15 = 16 ∧ xy 15 0 = 255 := by
  refine ⟨by decide, ?_, by decide, by decide, by decide, by decide, by decide⟩
  rw [Fintype.bijective_iff_injective_and_card]
  refine ⟨?_, by simp only [Fintype.card_prod, Fintype.card_fin]⟩
  rintro ⟨x1, y1⟩ ⟨x2, y2⟩ h
  have hv : xy x1 y1 = xy x2 y2 := congrArg Fin.val h
  obtain ⟨hx, hy⟩ := xy_inj x1 y1 x2 y2 x1.isLt y1.isLt x2.isLt y2.isLt hv
  exact Prod.ext (Fin.ext hx) (Fin.ext hy)

set_option maxRecDepth 8192 in
/-- C8: for every input byte, `encode_byte` emits exactly four SPI bytes,
one per consecutive two-bit group (most significant pair first) drawn from
the pattern table, and decoding them through the inverse bit-pair table
reproduces the input byte. -/
theorem encode_byte_roundtrip : ∀ b < 256,
    (encode_byte b).length = 4 ∧
    encode_byte b =
      [ws2812Patterns.getD (b / 64) 0, ws2812Patterns.getD (b / 16 % 4) 0,
       ws2812Patterns.getD (b / 4 % 4) 0, ws2812Patterns.getD (b % 4) 0] ∧
    ws2812DecodeByte (encode_byte b) = b := by
  decide

/-- Witness for `encode_byte_roundtrip` at the concrete byte 172. -/
theorem encode_byte_roundtrip_witness :
    (encode_byte 172).length = 4 ∧ ws2812DecodeByte (encode_byte 172) = 172 :=
  ⟨(encode_byte_roundtrip 172 (by decide)).1,
   (encode_byte_roundtrip 172 (by decide)).2.2⟩

/-- C1 (code bug): `calculate_channel` slices
`spectrum[start_index ..= end_index + 1]`, so for the valid configuration
`start_index = 0, end_index = 255` (which satisfies the documented invariant
`start <= end < 256`) it reads index 256 of the 256-bin spectrum — out of
bounds — and even for the in-range configuration `start = 3, end = 10` it
reads bin 11, outside the documented inclusive range. -/
theorem calculate_channel_reads_past_range :
    ((ChannelRange.mk 0 255).start_index ≤ (ChannelRange.mk 0 255).end_index ∧
      (ChannelRange.mk 0 255).end_index < 256) ∧
    256 ∈ calculateChannelBinsRead (ChannelRange.mk 0 255) ∧
    ¬ calculateChannelSliceInBounds (ChannelRange.mk 0 255) ∧
    11 ∈ calculateChannelBinsRead (ChannelRange.mk 3 10) ∧
    ¬ 11 ≤ (ChannelRange.mk 3 10).end_index := by
  refine ⟨by decide, by decide, by decide, by decide, by decide⟩

/-- C3: a Commit processed mid-update whose finalized digest differs from
the expected hash leaves the handler with status ERROR, never calls
`OtaUpdater::complete` (the partition is not marked bootable), and never
invokes the software reset. -/
theorem commit_hash_mismatch_no_boot_no_reset
    (env : OtaEnv) (s : OtaState) (fed exp : List Nat) (status0 : Nat)
    (hu : s.ota_updater = some ()) (hh : s.hasher = some fed)
    (he : s.expected_hash = some exp) (hne : env.sha256 fed ≠ exp) :
    (process_ota_control env s [OTA_CMD_COMMIT]).diverged = false ∧
    lastSetStatus (process_ota_control env s [OTA_CMD_COMMIT]).actions status0 =
      OTA_STATUS_ERROR ∧
    OtaAction.updaterComplete ∉ (process_ota_control env s [OTA_CMD_COMMIT]).actions ∧
    OtaAction.reset ∉ (process_ota_control env s [OTA_CMD_COMMIT]).actions := by
  obtain ⟨u, br, eh, hs⟩ := s
  simp only at hu hh he
  subst hu hh he
  simp [process_ota_control, commit_ota, lastSetStatus, hne,
        OTA_CMD_BEGIN, OTA_CMD_COMMIT, OTA_STATUS_ERROR]

/-- Witness for `commit_hash_mismatch_no_boot_no_reset`: mismatching
digest `[9, 9, 9]` against expected `[1]` under `otaEnvId`. -/
theorem commit_hash_mismatch_witness :
    (process_ota_control otaEnvId ⟨some (), 3, some [1], some [9, 9, 9]⟩
        [OTA_CMD_COMMIT]).diverged = false ∧
    OtaAction.reset ∉
      (process_ota_control otaEnvId ⟨some (), 3, some [1], some [9, 9, 9]⟩
        [OTA_CMD_COMMIT]).actions :=
  ⟨(commit_hash_mismatch_no_boot_no_reset otaEnvId _ [9, 9, 9] [1] 0
      rfl rfl rfl (by decide)).1,
   (commit_hash_mismatch_no_boot_no_reset otaEnvId _ [9, 9, 9] [1] 0
      rfl rfl rfl (by decide)).2.2.2⟩

/-- C4 counterexample: on a fresh connection (no hash stored) a Begin
write is rejected, but `ota_status` does not remain IDLE — the handler
sets it to ERROR (0x03). -/
theorem begin_without_hash_status_counterexample :
    (process_ota_control otaEnvId otaInitialState [OTA_CMD_BEGIN]).actions =
      [.setStatus OTA_STATUS_ERROR, .reply (some .UNLIKELY_ERROR)] ∧
    lastSetStatus
      (process_ota_control otaEnvId otaInitialState [OTA_CMD_BEGIN]).actions
      OTA_STATUS_IDLE = OTA_STATUS_ERROR ∧
    OTA_STATUS_ERROR ≠ OTA_STATUS_IDLE := by
  decide

/-- C4 (amended): a Begin written before any expected hash is stored is
rejected at the ATT layer with UNLIKELY_ERROR, `ota_status` is set to
ERROR (0x03), and the session state is unchanged. -/
theorem begin_without_hash_rejected_error
    (env : OtaEnv) (s : OtaState) (status0 : Nat)
    (h : s.expected_hash = none) :
    (process_ota_control env s [OTA_CMD_BEGIN]).actions =
      [.setStatus OTA_STATUS_ERROR, .reply (some .UNLIKELY_ERROR)] ∧
    lastSetStatus (process_ota_control env s [OTA_CMD_BEGIN]).actions status0 =
      OTA_STATUS_ERROR ∧
    (process_ota_control env s [OTA_CMD_BEGIN]).state = s := by
  obtain ⟨u, br, eh, hs⟩ := s
  simp only at h
  subst h
  cases u <;>
    simp [process_ota_control, begin_ota, lastSetStatus,
          OTA_CMD_BEGIN, OTA_STATUS_ERROR]

/-- Witness for `begin_without_hash_rejected_error` on the fresh
connection state. -/
theorem begin_without_hash_rejected_error_witness :
    lastSetStatus
      (process_ota_control otaEnvId otaInitialState [OTA_CMD_BEGIN]).actions
      OTA_STATUS_IDLE = OTA_STATUS_ERROR :=
  (begin_without_hash_rejected_error otaEnvId otaInitialState OTA_STATUS_IDLE
    (by decide)).2.1

/-- C5 (code bug): on a Commit whose hash verification succeeds, the
software reset fires inside `commit_ota` itself, so the handler diverges
with trace `[updaterComplete, reset]` — the reset happens before any ATT
response is sent, with no delay, and status SUCCESS is never set (the
delayed-reset code in the handler arm is unreachable). -/
theorem commit_success_resets_before_reply :
    (process_ota_control otaEnvId otaReceivingState [OTA_CMD_COMMIT]).diverged =
      true ∧
    (process_ota_control otaEnvId otaReceivingState [OTA_CMD_COMMIT]).actions =
      [.updaterComplete, .reset] := by
  decide

/-- C10: an Abort command (and the disconnect cleanup while an update is
in progress) clears the whole OTA session — updater, byte counter, hasher
and the stored expected hash — so Begin is rejected on the cleared state
until a new 32-byte hash write, after which Begin succeeds again. -/
theorem abort_clears_session
    (env : OtaEnv) (s : OtaState) (h32 : List Nat) :
    (process_ota_control env s [OTA_CMD_ABORT]).state = otaInitialState ∧
    (s.ota_updater = some () → (disconnect_cleanup s).1 = otaInitialState) ∧
    begin_ota env otaInitialState = .error "Expected hash not set" ∧
    (h32.length = 32 → env.updaterNewOk = true →
      begin_ota env (process_ota_hash otaInitialState h32).1 =
        .ok ⟨some (), 0, some h32, some []⟩) := by
  refine ⟨?_, ?_, ?_, ?_⟩
  · simp [process_ota_control, abort_ota, otaInitialState,
          OTA_CMD_BEGIN, OTA_CMD_COMMIT, OTA_CMD_ABORT]
  · intro h
    simp [disconnect_cleanup, h, abort_ota, otaInitialState]
  · simp [begin_ota, otaInitialState]
  · intro hlen hnew
    simp [process_ota_hash, hlen, begin_ota, hnew, otaInitialState]

/-- Witness for `abort_clears_session` with an in-progress state and a
32-byte hash of zeros. -/
theorem abort_clears_session_witness :
    (process_ota_control otaEnvId otaReceivingState [OTA_CMD_ABORT]).state =
      otaInitialState ∧
    begin_ota otaEnvId
        (process_ota_hash otaInitialState (List.replicate 32 0)).1 =
      .ok ⟨some (), 0, some (List.replicate 32 0), some []⟩ :=
  ⟨(abort_clears_session otaEnvId otaReceivingState (List.replicate 32 0)).1,
   (abort_clears_session otaEnvId otaReceivingState (List.replicate 32 0)).2.2.2
     (by decide) rfl⟩

/-- C2 counterexample: with four distinct channel colors the Stripes and
Quarters framebuffers differ at strip index 24 (physical column 1, a
serpentine-reversed column): Quarters puts channel 0 there, Stripes puts
channel 1. -/
theorem stripes_quarters_counterexample :
    quartersFrame demoColors 24 = demoColors 0 ∧
    stripesFrame demoColors 24 = demoColors 1 ∧
    quartersFrame demoColors 24 ≠ stripesFrame demoColors 24 := by
  refine ⟨by decide, by decide, by decide⟩

/-- C2 (amended): Quarters places channel colors by the physical quadrant
under the serpentine mapping — at strip index `j` it shows the channel of
quadrant `(j / 16, serpY j)` — while Stripes ignores the serpentine map
and instead shows the channel of `(j % 16, j / 16)` computed from the raw
linear index; the two framebuffers are therefore different in general. -/
theorem quarters_vs_stripes_quadrants (cc : Nat → RGB8) :
    ∀ j < 256,
      quartersFrame cc j = cc (quadrantOf (j / 16) (serpY j)) ∧
      stripesFrame cc j = cc (quadrantOf (j % 16) (j / 16)) := by
  intro j hj
  constructor
  · rw [quartersFrame_eq_sel, quartersSel_eq j hj]
    rfl
  · simp only [stripesFrame, quadrantOf, ge_iff_le]
    rcases Nat.lt_or_ge (j / 16) 8 with h1 | h1 <;>
      rcases Nat.lt_or_ge (j % 16) 8 with h2 | h2
    · simp [h1, h2]
    · simp [h1, h2, Nat.not_lt.mpr h2]
    · simp [Nat.not_lt.mpr h1, h1, h2]
    · simp [Nat.not_lt.mpr h1, Nat.not_lt.mpr h2, h1, h2]

/-- Witness for `quarters_vs_stripes_quadrants` at the demo colors and
strip index 24. -/
theorem quarters_vs_stripes_quadrants_witness :
    quartersFrame demoColors 24 = demoColors (quadrantOf (24 / 16) (serpY 24)) ∧
    stripesFrame demoColors 24 = demoColors (quadrantOf (24 % 16) (24 / 16)) :=
  quarters_vs_stripes_quadrants demoColors 24 (by decide)

/-- C9 counterexample: at strength 31/32 the claim predicts
`round(31/32 * 16) = 16` filled rows — the whole column, including the top
pixel — but the code truncates to 15 rows and leaves the top pixel of
bar 0 black. -/
theorem bars_round_counterexample :
    barsPixelCount (31 / 32 : ℚ) = 15 ∧
    round ((31 / 32 : ℚ) * 16) = 16 ∧
    barsFrameOf strengthAlmostFull demoColors (xy 0 0) = black ∧
    demoColors 0 ≠ black := by
  refine ⟨?_, ?_, ?_, by decide⟩
  · have hf : (⌊(31 / 32 : ℚ) * 16⌋ : ℤ) = 15 := by
      rw [Int.floor_eq_iff]
      norm_num
    simp [barsPixelCount, hf]
  · have h : (31 / 32 : ℚ) * 16 + 1 / 2 = 16 := by norm_num
    rw [round_eq, h]
    norm_num
  · rw [barsFrameOf, strengthAlmostFull_count]
    decide

/-- C9 (amended): for channel strengths in `[0, 1]`, bar `col / 2`
(columns `2i` and `2i + 1`) is filled bottom-up with exactly
`floor(strength * 16)` pixels of the channel color — truncation, not
rounding — and every other pixel of those columns is black. -/
theorem bars_fill_truncated (strength : Nat → ℚ) (bc : Nat → RGB8)
    (col row : Nat) (hs : ∀ i, strength i ≤ 1) (hcol : col < 16)
    (hrow : row < 16) :
    barsFrameOf strength bc (xy col row) =
      if 16 - barsPixelCount (strength (col / 2)) ≤ row then bc (col / 2)
      else black :=
  barsFrame_apply bc _ col row (fun i => barsPixelCount_le _ (hs i)) hcol hrow

/-- Witness for `bars_fill_truncated` at the S2 strengths (channel 0 at
3/8), column 0, row 10: the first filled row, since `floor(3/8 * 16) = 6`
fills rows 10..15. -/
theorem bars_fill_truncated_witness :
    barsFrameOf strengthS2 demoColors (xy 0 10) =
      if 16 - barsPixelCount (strengthS2 (0 / 2)) ≤ 10 then demoColors (0 / 2)
      else black :=
  bars_fill_truncated strengthS2 demoColors 0 10
    (fun i => by
      unfold strengthS2
      split <;> norm_num)
    (by decide) (by decide)

/-! ## Round-trip lemmas for the postcard model -/

/-- Varint decoding inverts encoding, provided the fuel covers the
value. -/
theorem varintDecode_encodeAux (fuel : Nat) : ∀ n, n < 128 ^ fuel →
    ∀ rest, varintDecode (varintEncodeAux fuel n ++ rest) = some (n, rest) := by
  induction fuel with
  | zero =>
    intro n hn rest
    have h0 : n = 0 := by simpa using hn
    subst h0
    simp [varintEncodeAux, varintDecode]
  | succ fuel ih =>
    intro n hn rest
    rw [varintEncodeAux]
    split
    · case isTrue h => simp [varintDecode, h]
    · case isFalse h =>
      simp only [List.cons_append, List.append_eq, varintDecode]
      rw [if_neg (by omega)]
      rw [ih (n / 128)
        (by
          rw [pow_succ, Nat.mul_comm] at hn
          exact Nat.div_lt_of_lt_mul hn)
        rest]
      show some ((n % 128 + 128) % 128 + 128 * (n / 128), rest) = some (n, rest)
      have heq : (n % 128 + 128) % 128 + 128 * (n / 128) = n := by omega
      rw [heq]

/-- Varint round trip for every value below `2^64`. -/
theorem varintDecode_encode (n : Nat) (hn : n < 2 ^ 64) (rest : List Nat) :
    varintDecode (varintEncode n ++ rest) = some (n, rest) :=
  varintDecode_encodeAux 10 n (lt_of_lt_of_le hn (by norm_num)) rest

/-- Width-checked varint round trip at the 32-bit width. -/
theorem deserVarint32_ser (n : Nat) (rest : List Nat) (h : n < 2 ^ 32) :
    deserVarint (2 ^ 32) (varintEncode n ++ rest) = some (n, rest) := by
  rw [deserVarint, varintDecode_encode n (lt_trans h (by norm_num)) rest]
  show (if n < 2 ^ 32 then some (n, rest) else none) = some (n, rest)
  exact if_pos h

/-- The 32-bit width check with its numeral normalized, as `simp`
produces it. -/
theorem deserVarint32_ser_num (n : Nat) (rest : List Nat) (h : n < 2 ^ 32) :
    deserVarint 4294967296 (varintEncode n ++ rest) = some (n, rest) :=
  deserVarint32_ser n rest h

/-- `f32` bit-pattern round trip. -/
theorem deserF32_ser (bits : Nat) (rest : List Nat) (h : bits < 2 ^ 32) :
    deserF32 (serF32 bits ++ rest) = some (bits, rest) := by
  show some (bits % 256 + 256 * (bits / 256 % 256) + 65536 * (bits / 65536 % 256)
      + 16777216 * (bits / 16777216 % 256), rest) = some (bits, rest)
  have heq : bits % 256 + 256 * (bits / 256 % 256) + 65536 * (bits / 65536 % 256)
      + 16777216 * (bits / 16777216 % 256) = bits := by omega
  rw [heq]

/-- `u8` round trip. -/
theorem deserU8_ser (n : Nat) (rest : List Nat) :
    deserU8 (serU8 n ++ rest) = some (n, rest) := rfl

/-- `bool` round trip. -/
theorem deserBool_ser (b : Bool) (rest : List Nat) :
    deserBool (serBool b ++ rest) = some (b, rest) := by
  cases b <;> rfl

/-- `AggregationMethod` round trip. -/
theorem deserAgg_ser (a : AggregationMethod) (rest : List Nat) :
    deserAgg (serAgg a ++ rest) = some (a, rest) := by
  cases a with
  | Sum =>
    rw [serAgg, deserAgg, show aggTag .Sum = 0 from rfl,
        deserVarint32_ser 0 rest (by norm_num)]
  | Max =>
    rw [serAgg, deserAgg, show aggTag .Max = 1 from rfl,
        deserVarint32_ser 1 rest (by norm_num)]
  | Average =>
    rw [serAgg, deserAgg, show aggTag .Average = 2 from rfl,
        deserVarint32_ser 2 rest (by norm_num)]

/-- `FFTSize` round trip. -/
theorem deserFFTSize_ser (f : FFTSize) (rest : List Nat) :
    deserFFTSize (serFFTSize f ++ rest) = some (f, rest) := by
  cases f with
  | Size128 =>
    rw [serFFTSize, deserFFTSize, show fftTag .Size128 = 0 from rfl,
        deserVarint32_ser 0 rest (by norm_num)]
  | Size256 =>
    rw [serFFTSize, deserFFTSize, show fftTag .Size256 = 1 from rfl,
        deserVarint32_ser 1 rest (by norm_num)]
  | Size512 =>
    rw [serFFTSize, deserFFTSize, show fftTag .Size512 = 2 from rfl,
        deserVarint32_ser 2 rest (by norm_num)]

/-- `ChannelConfig` round trip. -/
theorem deserChannelConfig_ser (c : ChannelConfig) (rest : List Nat)
    (h : c.wf) :
    deserChannelConfig (serChannelConfig c ++ rest) = some (c, rest) := by
  obtain ⟨si, ei, pm, ng, ex, ⟨c0, c1, c2⟩, ag⟩ := c
  obtain ⟨h1, h2, h3, h4, h5, h6, h7, h8⟩ := h
  simp only at h1 h2 h3 h4 h5 h6 h7 h8
  simp [deserChannelConfig, serChannelConfig, List.append_assoc,
        deserVarint32_ser si _ h1, deserVarint32_ser ei _ h2,
        deserVarint32_ser_num si _ h1, deserVarint32_ser_num ei _ h2,
        deserF32_ser pm _ h3, deserF32_ser ng _ h4, deserU8_ser ex,
        deserF32_ser c0 _ h6, deserF32_ser c1 _ h7, deserF32_ser c2 _ h8,
        deserAgg_ser ag]

/-- Round trip for a counted array of channel configurations. -/
theorem deserChannels_ser (cs : List ChannelConfig) (rest : List Nat)
    (h : ∀ c ∈ cs, c.wf) :
    deserChannels cs.length (cs.flatMap serChannelConfig ++ rest) =
      some (cs, rest) := by
  induction cs with
  | nil => simp [deserChannels]
  | cons c cs ih =>
    simp only [List.flatMap_cons, List.append_assoc, List.length_cons]
    rw [deserChannels]
    simp [deserChannelConfig_ser c _ (h c (List.mem_cons_self _ _)),
          ih fun c' hc' => h c' (List.mem_cons_of_mem _ hc')]

/-- `NeopixelMatrixPattern` round trip. -/
theorem deserPattern_ser (p : NeopixelMatrixPattern) (rest : List Nat)
    (h : p.wf) :
    deserPattern (serPattern p ++ rest) = some (p, rest) := by
  cases p with
  | Stripes cs =>
    obtain ⟨hlen, hwf⟩ := h
    have hd := deserChannels_ser cs rest hwf
    rw [hlen] at hd
    rw [serPattern, deserPattern, show patternTag (.Stripes cs) = 0 from rfl,
        show patternChannels (.Stripes cs) = cs from rfl, List.append_assoc,
        deserVarint32_ser 0 _ (by norm_num)]
    simp [hd]
  | Bars cs =>
    obtain ⟨hlen, hwf⟩ := h
    have hd := deserChannels_ser cs rest hwf
    rw [hlen] at hd
    rw [serPattern, deserPattern, show patternTag (.Bars cs) = 1 from rfl,
        show patternChannels (.Bars cs) = cs from rfl, List.append_assoc,
        deserVarint32_ser 1 _ (by norm_num)]
    simp [hd]
  | Quarters cs =>
    obtain ⟨hlen, hwf⟩ := h
    have hd := deserChannels_ser cs rest hwf
    rw [hlen] at hd
    rw [serPattern, deserPattern, show patternTag (.Quarters cs) = 2 from rfl,
        show patternChannels (.Quarters cs) = cs from rfl, List.append_assoc,
        deserVarint32_ser 2 _ (by norm_num)]
    simp [hd]

/-- `AppConfig` round trip against an arbitrary byte suffix. -/
theorem deserAppConfig_ser (c : AppConfig) (rest : List Nat) (h : c.wf) :
    deserAppConfig (serAppConfig c ++ rest) = some (c, rest) := by
  obtain ⟨cv, sc, fs, hw, pt⟩ := c
  obtain ⟨h1, h2, h3⟩ := h
  simp only at h1 h2 h3
  simp [deserAppConfig, serAppConfig, List.append_assoc,
        deserVarint32_ser cv _ h1, deserVarint32_ser sc _ h2,
        deserVarint32_ser_num cv _ h1, deserVarint32_ser_num sc _ h2,
        deserFFTSize_ser fs, deserBool_ser hw, deserPattern_ser pt _ h3]

/-! ## C6 claim theorem -/

/-- C6: every well-formed `AppConfig` whose postcard serialization fits in
200 bytes survives the `to_bytes` / `from_bytes` round trip bit-for-bit.
(`f32` fields are compared as bit patterns, which is the "bit-for-bit"
equality of the wire contract.) -/
theorem appconfig_roundtrip (c : AppConfig) (hwf : c.wf)
    (hlen : (serAppConfig c).length ≤ 200) :
    AppConfig.to_bytes c = some (serAppConfig c) ∧
    AppConfig.from_bytes (serAppConfig c) = some c := by
  constructor
  · rw [AppConfig.to_bytes, if_pos hlen]
  · have hd := deserAppConfig_ser c [] hwf
    rw [List.append_nil] at hd
    rw [AppConfig.from_bytes, hd]
    rfl

/-- Witness for `appconfig_roundtrip` at the concrete `sampleConfig`. -/
theorem appconfig_roundtrip_witness :
    AppConfig.to_bytes sampleConfig = some (serAppConfig sampleConfig) ∧
    AppConfig.from_bytes (serAppConfig sampleConfig) = some sampleConfig :=
  appconfig_roundtrip sampleConfig (by decide) (by decide)

end Diskomator
